import Mathlib

/-!
# PhantomLink — verification of the playback engine, data loader and session manager

A shallow embedding of the PhantomLink mock BCI data server's core logic:

* `data_loader.py` (`MC_MazeLoader`): binned spike counts, kinematics slicing,
  trial lookup, target positions.  Times are modelled as rationals; the NWB
  arrays become plain lists.
* `playback_engine.py` (`PlaybackEngine`): packet synthesis
  (`_generate_packet`), the 40 Hz streaming loop (`stream`), and `seek`.
  Wall-clock timestamps are threaded in as an explicit clock function; pauses
  and loop iterations are driven by an explicit oracle/fuel so the emission
  behaviour of a run of the generator is a pure function.
* `session_manager.py` (`SessionManager`): the insertion-ordered session map
  with capacity eviction, deletion, connection counters and TTL cleanup.

Python's `int(x)` truncates toward zero; `pyInt` reproduces that.  Integer
slicing and list indexing only ever receive nonnegative indices from the
engine (all times passed in are nonnegative), so Python's negative-index
wrap-around does not arise.
-/

namespace PhantomLink

/-- Python `int(x)`: truncation toward zero. -/
def pyInt (q : ℚ) : ℤ := if 0 ≤ q then ⌊q⌋ else ⌈q⌉

/-- Embeds `settings.stream_frequency_hz` (config.py). -/
def stream_frequency_hz : ℕ := 40

/-- Embeds `settings.packet_interval_ms` (config.py). -/
def packet_interval_ms : ℚ := 25

/-! ## Data loader (`data_loader.py`, `MC_MazeLoader`) -/

/-- One entry of `MC_MazeLoader._trial_index` as built by `_parse_trials`
(the unused `move_onset_time` / `go_cue_time` columns are omitted). -/
structure TrialInfo where
  trial_id : ℕ
  start_time : ℚ
  stop_time : ℚ
  success : Bool
  num_targets : ℕ
  active_target : ℕ
  target_pos : List (ℚ × ℚ)
deriving DecidableEq, Repr

/-- The data the loader reads from the NWB file: per-unit spike time lists,
the two 2-column behavior arrays (`cursor_pos` is (x, y), `hand_vel` is
(vx, vy)), the detected behavior sampling rate, the recording duration
(`timestamps[-1]`), and the parsed trial index. -/
structure Loader where
  spikeTimes : List (List ℚ)
  cursorPos : List (ℚ × ℚ)
  handVel : List (ℚ × ℚ)
  behaviorRate : ℚ
  duration : ℚ
  trials : List TrialInfo
deriving DecidableEq, Repr

/-- Embeds `MC_MazeLoader.num_channels` (`len(self._units.id[:])`). -/
def Loader.num_channels (L : Loader) : ℕ := L.spikeTimes.length

/-- Embeds `MC_MazeLoader.num_timesteps` (`int(self.duration * 40)`). -/
def Loader.num_timesteps (L : Loader) : ℤ := pyInt (L.duration * 40)

/-- Pointwise list update used to express
`spike_counts[bin_idx, unit_idx] += 1`. -/
def listModify (f : α → α) : ℕ → List α → List α
  | _, [] => []
  | 0, a :: as => f a :: as
  | n + 1, a :: as => a :: listModify f n as

/-- Embeds `spike_counts[b, c] += 1` on a (bins × channels) matrix of counts. -/
def bumpAt (counts : List (List ℕ)) (b c : ℕ) : List (List ℕ) :=
  listModify (listModify (· + 1) c) b counts

/-- Embeds `np.clip(z, 0, B - 1)` for an integer bucket index. -/
def clipBin (B : ℕ) (z : ℤ) : ℕ := (min (max 0 z) ((B : ℤ) - 1)).toNat

/-- Embeds `MC_MazeLoader.get_binned_spikes`: `num_bins = max(1, int((t1-t0)/bs))`,
then for each unit the spike times with `t0 ≤ t < t1` are bucketed at
`np.floor((t - t0)/bs)` clipped into `[0, num_bins)`, incrementing the
count matrix entry per spike. -/
def Loader.get_binned_spikes (L : Loader) (start_time end_time : ℚ)
    (bin_size_ms : ℚ) : List (List ℕ) :=
  let bin_size_s := bin_size_ms / 1000
  let num_bins : ℕ := max 1 (pyInt ((end_time - start_time) / bin_size_s)).toNat
  let init := List.replicate num_bins (List.replicate L.num_channels 0)
  (List.range L.num_channels).foldl (fun counts unit_idx =>
    let spike_times := L.spikeTimes.getD unit_idx []
    let spikes_in_window :=
      spike_times.filter fun t => decide (start_time ≤ t) && decide (t < end_time)
    spikes_in_window.foldl (fun cs t =>
      bumpAt cs (clipBin num_bins ⌊(t - start_time) / bin_size_s⌋) unit_idx) counts)
    init

/-- The four arrays returned by `MC_MazeLoader.get_kinematics`. -/
structure KinSlice where
  vx : List ℚ
  vy : List ℚ
  x : List ℚ
  y : List ℚ
deriving DecidableEq, Repr

/-- Embeds `MC_MazeLoader.get_kinematics`: index-slice the two behavior arrays with
`start_idx = int(start_time * rate)`, `end_idx = int(end_time * rate)` and
split the 2-column data into per-component arrays.  (The engine only passes
nonnegative times, so the Python indices are nonnegative.) -/
def Loader.get_kinematics (L : Loader) (start_time end_time : ℚ) : KinSlice :=
  let start_idx := (pyInt (start_time * L.behaviorRate)).toNat
  let end_idx := (pyInt (end_time * L.behaviorRate)).toNat
  let cursor_data := (L.cursorPos.drop start_idx).take (end_idx - start_idx)
  let vel_data := (L.handVel.drop start_idx).take (end_idx - start_idx)
  { vx := vel_data.map Prod.fst
    vy := vel_data.map Prod.snd
    x := cursor_data.map Prod.fst
    y := cursor_data.map Prod.snd }

/-- Embeds `MC_MazeLoader.get_trial_by_time`: first trial with
`start_time ≤ t < stop_time`, else `None`. -/
def Loader.get_trial_by_time (L : Loader) (t : ℚ) : Option TrialInfo :=
  L.trials.find? fun tr => decide (tr.start_time ≤ t) && decide (t < tr.stop_time)

/-- Embeds `MC_MazeLoader.get_trials_by_target`. -/
def Loader.get_trials_by_target (L : Loader) (target_index : ℕ) : List TrialInfo :=
  L.trials.filter fun tr => tr.active_target = target_index

/-- Embeds `MC_MazeLoader.get_target_position`: `target_pos[active_target]` when the
index is in range, else `None`. -/
def Loader.get_target_position (trial_info : TrialInfo) : Option (ℚ × ℚ) :=
  trial_info.target_pos.get? trial_info.active_target

/-! ## Packet model (`models.py`) -/

/-- Embeds `SpikeData` (spike counts are `.astype(int)` of nonnegative bin counts). -/
structure SpikeData where
  channel_ids : List ℕ
  spike_counts : List ℕ
  bin_size_ms : ℚ
deriving DecidableEq, Repr

/-- Embeds `Kinematics`. -/
structure Kinematics where
  vx : ℚ
  vy : ℚ
  x : ℚ
  y : ℚ
deriving DecidableEq, Repr

/-- Embeds `TargetIntention` (`distance_to_target` is never set by the engine). -/
structure TargetIntention where
  target_id : Option ℕ
  target_x : Option ℚ
  target_y : Option ℚ
  distance_to_target : Option ℚ := none
deriving DecidableEq, Repr

/-- Embeds `StreamPacket`. -/
structure StreamPacket where
  timestamp : ℚ
  sequence_number : ℕ
  spikes : SpikeData
  kinematics : Kinematics
  intention : TargetIntention
  trial_id : Option ℕ
  trial_time_ms : Option ℚ
deriving DecidableEq, Repr

/-! ## Playback engine (`playback_engine.py`, `PlaybackEngine`) -/

/-- The mutable per-session engine counters: `_current_index`,
`_sequence_number`, `_start_time`. -/
structure EngineState where
  current_index : ℕ
  sequence_number : ℕ
  start_time : ℚ
deriving DecidableEq, Repr

/-- Outcome of one call to `PlaybackEngine._generate_packet`: `None` at
end-of-dataset, an uncaught `IndexError` when the kinematics slice is empty
(`kinematics_data['vx'][0]` etc.), or a packet. -/
inductive GenResult where
  | endOfData
  | kinematicsError
  | ok (p : StreamPacket)
deriving DecidableEq, Repr

/-- Embeds `PlaybackEngine._generate_packet`, with the wall clock passed in as
`now`.  Returns the outcome together with the engine state as left by the
call: `self._current_index += 1` runs only after the packet is assembled, so
the cursor advances only on the `ok` path.  (The Python method also calls
`self.loader.get_targets(...)` but never uses the result, so that dead call
is omitted here.) -/
def generatePacket (L : Loader) (now : ℚ) (st : EngineState) :
    GenResult × EngineState :=
  if (st.current_index : ℤ) ≥ L.num_timesteps then (.endOfData, st)
  else
    let bin_size_s := packet_interval_ms / 1000
    let start_time := (st.current_index : ℚ) * bin_size_s
    let end_time := start_time + bin_size_s
    let spike_counts_array := L.get_binned_spikes start_time end_time packet_interval_ms
    let kinematics_data := L.get_kinematics start_time end_time
    match kinematics_data.vx.head?, kinematics_data.vy.head?,
        kinematics_data.x.head?, kinematics_data.y.head? with
    | some vx, some vy, some x, some y =>
      let trial_info := L.get_trial_by_time start_time
      let trial_id := trial_info.map (·.trial_id)
      let target_pos := trial_info.bind Loader.get_target_position
      let spike_counts :=
        spike_counts_array.head?.getD (List.replicate L.num_channels 0)
      let packet : StreamPacket :=
        { timestamp := now
          sequence_number := st.sequence_number
          spikes :=
            { channel_ids := List.range L.num_channels
              spike_counts := spike_counts
              bin_size_ms := packet_interval_ms }
          kinematics := { vx := vx, vy := vy, x := x, y := y }
          intention :=
            { target_id := trial_info.map (·.active_target)
              target_x := target_pos.map Prod.fst
              target_y := target_pos.map Prod.snd }
          trial_id := trial_id
          trial_time_ms := some (start_time * 1000) }
      (.ok packet, { st with current_index := st.current_index + 1 })
    | _, _, _, _ => (.kinematicsError, st)

/-- The trial-filter test of the stream loop:
`trial_filter is not None and packet.trial_id != trial_filter` rejects. -/
def passesTrialFilter (trial_filter : Option ℕ) (p : StreamPacket) : Bool :=
  match trial_filter with
  | none => true
  | some t => p.trial_id = some t

/-- The target-filter test of the stream loop:
`target_filter is not None and packet.intention.target_id != target_filter`
rejects. -/
def passesTargetFilter (target_filter : Option ℕ) (p : StreamPacket) : Bool :=
  match target_filter with
  | none => true
  | some t => p.intention.target_id = some t

/-- The fixed inputs of one run of `PlaybackEngine.stream`: the loader, the
`loop` flag, the two filters, and the wall clock sampled at each iteration
(indexed by remaining fuel). -/
structure StreamParams where
  loader : Loader
  loopFlag : Bool
  trial_filter : Option ℕ
  target_filter : Option ℕ
  clock : ℕ → ℚ

/-- The body of `PlaybackEngine.stream`'s `while self.is_running` loop,
returning the packets the generator yields.  `fuel` bounds the number of
loop iterations (an external `stop()` at that point, or simply where we stop
observing an infinite looping stream); `pauses` is the value of
`self.is_paused` read at the top of each iteration (exhausted list = not
paused).  A paused iteration sleeps without touching any state; end-of-data
either resets `_current_index` to 0 (loop flag) or breaks; a rejected packet
advances `_current_index` once more (on top of the advance already done by
`_generate_packet`) and yields nothing; an emitted packet increments
`_sequence_number`. -/
def streamRun (P : StreamParams) : ℕ → List Bool → EngineState → List StreamPacket
  | 0, _, _ => []
  | fuel + 1, pauses, st =>
    if pauses.headD false then
      streamRun P fuel pauses.tail st
    else
      match generatePacket P.loader (P.clock fuel) st with
      | (.endOfData, st') =>
        if P.loopFlag then
          streamRun P fuel pauses.tail { st' with current_index := 0 }
        else []
      | (.kinematicsError, _) => []
      | (.ok packet, st') =>
        if ¬ passesTrialFilter P.trial_filter packet then
          streamRun P fuel pauses.tail
            { st' with current_index := st'.current_index + 1 }
        else if ¬ passesTargetFilter P.target_filter packet then
          streamRun P fuel pauses.tail
            { st' with current_index := st'.current_index + 1 }
        else
          packet :: streamRun P fuel pauses.tail
            { st' with sequence_number := st'.sequence_number + 1 }

/-- Embeds `PlaybackEngine.stream`: before the loop the generator sets
`self._start_time = time.time()`, `self._current_index = 0` and
`self._sequence_number = 0`, discarding whatever state (`prior`) the engine
held from earlier seeks or runs. -/
def stream (L : Loader) (prior : EngineState) (loopFlag : Bool)
    (trial_filter target_filter : Option ℕ) (fuel : ℕ) (pauses : List Bool)
    (clock : ℕ → ℚ) (now₀ : ℚ) : List StreamPacket :=
  streamRun ⟨L, loopFlag, trial_filter, target_filter, clock⟩ fuel pauses
    { prior with current_index := 0, sequence_number := 0, start_time := now₀ }

/-- Embeds `PlaybackEngine.seek`: `int(position_seconds * 40)` clamped by
`max(0, min(index, num_timesteps - 1))`; nothing else is touched. -/
def seek (L : Loader) (position_seconds : ℚ) (st : EngineState) : EngineState :=
  let idx : ℤ := pyInt (position_seconds * (stream_frequency_hz : ℚ))
  { st with current_index := (max 0 (min idx (L.num_timesteps - 1))).toNat }

/-- The `seek` behaviour the specification describes: the same clamped cursor
update, but additionally re-basing `T_start` so that the next expected
emission time `T_start + s·0.025` equals the current wall-clock `now`. -/
def seekSpec (L : Loader) (position_seconds : ℚ) (now : ℚ) (st : EngineState) :
    EngineState :=
  { current_index := (max 0 (min ⌊position_seconds * 40⌋ (L.num_timesteps - 1))).toNat
    sequence_number := st.sequence_number
    start_time := now - (st.sequence_number : ℚ) * (packet_interval_ms / 1000) }

/-! ## Session manager (`session_manager.py`, `SessionManager`) -/

/-- One value of the `sessions` ordered dict: the engine's `is_running` flag
(a fresh `PlaybackEngine` starts with `is_running = False`; `stop()` clears
it) plus the bookkeeping fields.  `connections` is a Python int, so it is
modelled as `ℤ` — its nonnegativity is a property to prove, not a typing
assumption. -/
structure Session where
  is_running : Bool
  created : ℚ
  last_active : ℚ
  connections : ℤ
deriving DecidableEq, Repr

/-- Embeds `SessionManager`: the insertion-ordered `sessions` map (oldest first),
`max_sessions` and `session_ttl`. -/
structure SessionManager where
  sessions : List (String × Session)
  max_sessions : ℕ
  session_ttl : ℚ
deriving DecidableEq, Repr

/-- Dictionary lookup `self.sessions[code]` / `code in self.sessions`. -/
def lookupEntry : List (String × Session) → String → Option Session
  | [], _ => none
  | (c, s) :: rest, code => if c = code then some s else lookupEntry rest code

/-- Embeds `del self.sessions[code]` (keys are unique, so removing the first
occurrence is dictionary deletion). -/
def removeEntry : List (String × Session) → String → List (String × Session)
  | [], _ => []
  | (c, s) :: rest, code => if c = code then rest else (c, s) :: removeEntry rest code

/-- In-place update `self.sessions[code]['…'] = …` (no-op when absent). -/
def setEntry (upd : Session → Session) :
    List (String × Session) → String → List (String × Session)
  | [], _ => []
  | (c, s) :: rest, code =>
    if c = code then (c, upd s) :: rest else (c, s) :: setEntry upd rest code

/-- Embeds `SessionManager._update_activity`: stamp `last_active` and
`move_to_end` (most-recently-used position). -/
def updateActivity (m : SessionManager) (code : String) (now : ℚ) :
    SessionManager :=
  match lookupEntry m.sessions code with
  | none => m
  | some s =>
    { m with
      sessions := removeEntry m.sessions code ++ [(code, { s with last_active := now })] }

/-- Embeds `SessionManager.delete_session`.  Returns the Python `bool` result, the
manager afterwards, and — on success — the state of the removed session
after `session['engine'].stop()` ran on it. -/
def deleteSession (m : SessionManager) (code : String) :
    Bool × SessionManager × Option Session :=
  match lookupEntry m.sessions code with
  | none => (false, m, none)
  | some s =>
    if 0 < s.connections then (false, m, none)
    else
      (true, { m with sessions := removeEntry m.sessions code },
        some { s with is_running := false })

/-- Embeds `SessionManager._evict_oldest_session`: look at the single oldest entry
(the front of the ordered dict); if it has active connections, log and do
nothing, otherwise delete it. -/
def evictOldestSession (m : SessionManager) : SessionManager :=
  match m.sessions with
  | [] => m
  | (oldest_code, oldest) :: _ =>
    if 0 < oldest.connections then m
    else (deleteSession m oldest_code).2.1

/-- The fresh entry stored by `create_session` (`connections = 0`, both
timestamps `now`, engine not yet running). -/
def freshSession (now : ℚ) : Session :=
  { is_running := false, created := now, last_active := now, connections := 0 }

/-- Embeds `SessionManager.create_session` for a concrete `code` (when
`session_code=None` the Python code first draws a random code that is not in
use and then proceeds exactly like this with that fresh code).  An existing
code is touched and returned; a new code triggers the capacity check
(`len(sessions) >= max_sessions` ⇒ `_evict_oldest_session()`) and is then
appended at the most-recent end. -/
def createSession (m : SessionManager) (code : String) (now : ℚ) :
    SessionManager :=
  if (lookupEntry m.sessions code).isSome then updateActivity m code now
  else
    let m' := if m.max_sessions ≤ m.sessions.length then evictOldestSession m else m
    { m' with sessions := m'.sessions ++ [(code, freshSession now)] }

/-- Embeds `SessionManager.get_session`: touch activity when present. -/
def getSession (m : SessionManager) (code : String) (now : ℚ) : SessionManager :=
  match lookupEntry m.sessions code with
  | none => m
  | some _ => updateActivity m code now

/-- Embeds `SessionManager.increment_connections`. -/
def incrementConnections (m : SessionManager) (code : String) : SessionManager :=
  { m with
    sessions := setEntry (fun s => { s with connections := s.connections + 1 })
      m.sessions code }

/-- Embeds `SessionManager.decrement_connections`: `max(0, connections - 1)`. -/
def decrementConnections (m : SessionManager) (code : String) : SessionManager :=
  { m with
    sessions := setEntry (fun s => { s with connections := max 0 (s.connections - 1) })
      m.sessions code }

/-- Embeds `SessionManager.cleanup_expired_sessions`: collect the codes with
`now - last_active > ttl` and no connections, then delete each. -/
def cleanupExpiredSessions (m : SessionManager) (now : ℚ) : SessionManager × ℕ :=
  let expired := (m.sessions.filter fun e =>
    decide (m.session_ttl < now - e.2.last_active) && decide (e.2.connections = 0)).map
    Prod.fst
  (expired.foldl (fun acc c => (deleteSession acc c).2.1) m, expired.length)

/-- The public session-manager operations, for stating invariants over
arbitrary operation sequences. -/
inductive MgrOp where
  | create (code : String) (now : ℚ)
  | get (code : String) (now : ℚ)
  | increment (code : String)
  | decrement (code : String)
  | delete (code : String)
  | cleanup (now : ℚ)

/-- Apply one operation. -/
def applyOp (m : SessionManager) : MgrOp → SessionManager
  | .create code now => createSession m code now
  | .get code now => getSession m code now
  | .increment code => incrementConnections m code
  | .decrement code => decrementConnections m code
  | .delete code => (deleteSession m code).2.1
  | .cleanup now => (cleanupExpiredSessions m now).1

/-- Apply a sequence of operations. -/
def applyOps (m : SessionManager) (ops : List MgrOp) : SessionManager :=
  ops.foldl applyOp m

/-- The manager as constructed by `__init__`: empty session map. -/
def initManager (max_sessions : ℕ) (session_ttl : ℚ) : SessionManager :=
  { sessions := [], max_sessions := max_sessions, session_ttl := session_ttl }

/-- Every stored connection counter is nonnegative. -/
def connsNonneg (m : SessionManager) : Prop :=
  ∀ e ∈ m.sessions, 0 ≤ e.2.connections

/-- The packet carried by an `ok` outcome, if any. -/
def GenResult.packet? : GenResult → Option StreamPacket
  | .ok p => some p
  | _ => none

/-! ## Concrete datasets and managers used for evaluations -/

/-- A 1-channel recording of 1 s whose behavior stream was detected at 1 Hz:
40 bins, and every 25 ms window slices an empty behavior range
(`int(t·1) == int((t+0.025)·1)` for the first bin). -/
def exLoader : Loader :=
  { spikeTimes := [[]]
    cursorPos := [(1, 2)]
    handVel := [(3, 4)]
    behaviorRate := 1
    duration := 1
    trials := [] }

/-- A 1-channel recording of 0.1 s (4 bins) at a 40 Hz behavior rate, with a
single trial occupying exactly bin 1 (`[0.025 s, 0.05 s)`). -/
def exLoaderT1 : Loader :=
  { spikeTimes := [[]]
    cursorPos := [(0, 0), (0, 0), (0, 0), (0, 0)]
    handVel := [(0, 0), (0, 0), (0, 0), (0, 0)]
    behaviorRate := 40
    duration := 1/10
    trials := [{ trial_id := 0, start_time := 1/40, stop_time := 1/20,
                 success := true, num_targets := 1, active_target := 0,
                 target_pos := [(3, 4)] }] }

/-- Like `exLoaderT1` but with the trial occupying bins 2 and 3
(`[0.05 s, 0.1 s)`). -/
def exLoaderT2 : Loader :=
  { spikeTimes := [[]]
    cursorPos := [(0, 0), (0, 0), (0, 0), (0, 0)]
    handVel := [(0, 0), (0, 0), (0, 0), (0, 0)]
    behaviorRate := 40
    duration := 1/10
    trials := [{ trial_id := 0, start_time := 1/20, stop_time := 1/10,
                 success := true, num_targets := 1, active_target := 0,
                 target_pos := [(3, 4)] }] }

/-- A manager at capacity 2 whose oldest session has a live connection and
whose younger session is idle. -/
def exManager : SessionManager :=
  { sessions :=
      [("busy-old-1", { is_running := true, created := 0, last_active := 0,
                        connections := 1 }),
       ("idle-new-2", { is_running := true, created := 1, last_active := 1,
                        connections := 0 })]
    max_sessions := 2
    session_ttl := 3600 }

/-- A manager at capacity 2 whose oldest session is idle and whose younger
session has a live connection. -/
def exManagerIdleFirst : SessionManager :=
  { sessions :=
      [("idle-old-1", { is_running := true, created := 0, last_active := 0,
                        connections := 0 }),
       ("busy-new-2", { is_running := true, created := 1, last_active := 1,
                        connections := 1 })]
    max_sessions := 2
    session_ttl := 3600 }

/-- A 2-channel recording with a handful of spikes, for evaluating the
binning characterization. -/
def exLoaderSpikes : Loader :=
  { spikeTimes := [[1/100, 3/100, 9/100], [2/100, 2/100]]
    cursorPos := [(0, 0), (0, 0), (0, 0), (0, 0)]
    handVel := [(0, 0), (0, 0), (0, 0), (0, 0)]
    behaviorRate := 40
    duration := 1/10
    trials := [] }

/-- Entry `(b, c)` of a bins × channels count matrix (0 outside). -/
def countAt (M : List (List ℕ)) (b c : ℕ) : ℕ := (M.getD b []).getD c 0

/-- A count matrix of `B` rows (bins), each of length `C` (channels). -/
def MatShape (M : List (List ℕ)) (B C : ℕ) : Prop :=
  M.length = B ∧ ∀ row ∈ M, row.length = C

/-! ## Lemmas about packet generation and the stream loop -/

theorem generatePacket_ok_inv (L : Loader) (now : ℚ) (st : EngineState)
    (p : StreamPacket) (st' : EngineState)
    (h : generatePacket L now st = (.ok p, st')) :
    p.sequence_number = st.sequence_number ∧
      st' = { st with current_index := st.current_index + 1 } ∧
      p.trial_time_ms =
        some ((st.current_index : ℚ) * (packet_interval_ms / 1000) * 1000) := by
  unfold generatePacket at h
  split at h
  · simp at h
  · dsimp only at h
    split at h
    · rw [Prod.mk.injEq] at h
      obtain ⟨h₁, h₂⟩ := h
      cases h₁
      exact ⟨rfl, h₂.symm, rfl⟩
    · simp at h

theorem generatePacket_eos (L : Loader) (now : ℚ) (st : EngineState)
    (h : (st.current_index : ℤ) ≥ L.num_timesteps) :
    generatePacket L now st = (.endOfData, st) := by
  unfold generatePacket
  simp [h]

theorem generatePacket_seq_eq (L : Loader) (now : ℚ) (st : EngineState) :
    (generatePacket L now st).2.sequence_number = st.sequence_number := by
  unfold generatePacket
  split
  · rfl
  · dsimp only
    split <;> rfl

/-- Core of the sequence-integrity property: over any suffix of the loop,
the emitted `sequence_number`s count up from the state's current counter
with no gaps, whatever the pauses, filters, loop flag and data do. -/
theorem streamRun_map_seq (P : StreamParams) :
    ∀ (fuel : ℕ) (pauses : List Bool) (st : EngineState),
      (streamRun P fuel pauses st).map (·.sequence_number) =
        List.range' st.sequence_number (streamRun P fuel pauses st).length := by
  intro fuel
  induction fuel with
  | zero => intro pauses st; simp [streamRun]
  | succ n ih =>
    intro pauses st
    rw [streamRun]
    split
    · exact ih pauses.tail st
    · rcases hgen : generatePacket P.loader (P.clock n) st with ⟨res, st'⟩
      have hseq : st'.sequence_number = st.sequence_number := by
        have := generatePacket_seq_eq P.loader (P.clock n) st
        rw [hgen] at this
        exact this
      cases res with
      | endOfData =>
        dsimp only
        split
        · rw [ih]
          simp [hseq]
        · simp
      | kinematicsError => simp
      | ok p =>
        have hp : p.sequence_number = st.sequence_number :=
          (generatePacket_ok_inv P.loader (P.clock n) st p st' hgen).1
        dsimp only
        split
        · rw [ih]
          simp [hseq]
        · split
          · rw [ih]
            simp [hseq]
          · simp only [List.map_cons, List.length_cons, ih]
            simp [List.range', hp, hseq]

/-- The clamp used by `seek` does not care whether the index is produced by
Python truncation or by mathematical floor. -/
theorem clamp_pyInt_eq_clamp_floor (q : ℚ) (M : ℤ) :
    max 0 (min (pyInt q) M) = max 0 (min ⌊q⌋ M) := by
  unfold pyInt
  split
  · rfl
  · rename_i hq
    have hq' : q < 0 := lt_of_not_le hq
    have hc : ⌈q⌉ ≤ 0 := Int.ceil_le.mpr (by exact_mod_cast hq'.le)
    have hf : ⌊q⌋ ≤ ⌈q⌉ := Int.floor_le_ceil q
    omega

/-! ## Lemmas about the session map primitives -/

theorem lookupEntry_eq_none_iff (l : List (String × Session)) (code : String) :
    lookupEntry l code = none ↔ code ∉ l.map Prod.fst := by
  induction l with
  | nil => simp [lookupEntry]
  | cons e rest ih =>
    rcases e with ⟨c, s⟩
    by_cases hc : c = code
    · subst hc
      simp [lookupEntry]
    · simp [lookupEntry, hc, ih, Ne.symm hc]

theorem lookupEntry_removeEntry_ne (l : List (String × Session))
    (code c' : String) (h : c' ≠ code) :
    lookupEntry (removeEntry l code) c' = lookupEntry l c' := by
  induction l with
  | nil => rfl
  | cons e rest ih =>
    rcases e with ⟨c, s⟩
    by_cases hc : c = code
    · have hcc : ¬c = c' := fun e => h (e.symm.trans hc)
      simp [removeEntry, lookupEntry, hc, hcc, Ne.symm h]
    · by_cases hcc : c = c'
      · simp [removeEntry, lookupEntry, hc, hcc, h]
      · simp [removeEntry, lookupEntry, hc, hcc, ih, h]

theorem lookupEntry_removeEntry_self (l : List (String × Session))
    (code : String) (hnd : (l.map Prod.fst).Nodup) :
    lookupEntry (removeEntry l code) code = none := by
  induction l with
  | nil => rfl
  | cons e rest ih =>
    rcases e with ⟨c, s⟩
    simp only [List.map_cons, List.nodup_cons] at hnd
    by_cases hc : c = code
    · subst hc
      simp only [removeEntry, if_pos rfl]
      exact (lookupEntry_eq_none_iff rest c).2 hnd.1
    · simp only [removeEntry, if_neg hc, lookupEntry, if_neg hc]
      exact ih hnd.2

/-- With no filters installed, the loop state keeps `current_index = 0`
until the first emission, so the first emitted packet is synthesized from
bin 0 (visible through its `trial_time_ms = 0·25 ms`). -/
theorem streamRun_nofilter_first (P : StreamParams)
    (htf : P.trial_filter = none) (hgf : P.target_filter = none) :
    ∀ (fuel : ℕ) (pauses : List Bool) (st : EngineState),
      st.current_index = 0 →
      ∀ p ps, streamRun P fuel pauses st = p :: ps → p.trial_time_ms = some 0 := by
  intro fuel
  induction fuel with
  | zero => intro pauses st _ p ps hrun; simp [streamRun] at hrun
  | succ n ih =>
    intro pauses st h0 p ps hrun
    rw [streamRun] at hrun
    split at hrun
    · exact ih pauses.tail st h0 p ps hrun
    · rcases hgen : generatePacket P.loader (P.clock n) st with ⟨res, st'⟩
      rw [hgen] at hrun
      cases res with
      | endOfData =>
        dsimp only at hrun
        split at hrun
        · exact ih pauses.tail _ rfl p ps hrun
        · exact absurd hrun (by simp)
      | kinematicsError => exact absurd hrun (by simp)
      | ok q =>
        dsimp only at hrun
        rw [if_neg (by simp [passesTrialFilter, htf]),
          if_neg (by simp [passesTargetFilter, hgf])] at hrun
        obtain ⟨hq, -⟩ := List.cons.injEq .. ▸ hrun
        have h3 := (generatePacket_ok_inv P.loader (P.clock n) st q st' hgen).2.2
        rw [← hq, h3, h0]
        norm_num

/-- C1: emitted sequence numbers over one `stream` run are `0, 1, 2, …`. -/
theorem c1_sequence_numbers_contiguous (L : Loader) (prior : EngineState)
    (loopFlag : Bool) (tf gf : Option ℕ) (fuel : ℕ) (pauses : List Bool)
    (clock : ℕ → ℚ) (now₀ : ℚ) :
    (stream L prior loopFlag tf gf fuel pauses clock now₀).map (·.sequence_number)
      = List.range (stream L prior loopFlag tf gf fuel pauses clock now₀).length := by
  unfold stream
  rw [streamRun_map_seq, List.range_eq_range']

/-- C2: with `trial_filter = 0` on a dataset whose trial occupies exactly
bin 1, the stream emits nothing — the rejection of bin 0 advanced the
cursor twice (once inside `_generate_packet`, once in the filter branch),
so the matching bin 1 was skipped without being inspected. -/
theorem c2_filter_skips_bins_uninspected :
    stream exLoaderT1 ⟨0, 0, 0⟩ false (some 0) none 10 [] (fun _ => 0) 0 = [] ∧
    ((generatePacket exLoaderT1 0 ⟨1, 0, 0⟩).1.packet?.map
      fun p => p.trial_id) = some (some 0) := by
  constructor
  · with_unfolding_all decide
  · with_unfolding_all decide

/-- C3: `trial_time_ms` is the absolute bin-start time in milliseconds
(`start_time * 1000`), not the time since the enclosing trial's start, and
it is non-null even outside any trial: at bin 1, which begins exactly at
the trial's `t_start = 0.025 s`, the packet carries `trial_time_ms = 25`
rather than `0`; at bin 0, which lies in no trial, it carries `some 0`
rather than `null`. -/
theorem c3_trial_time_ms_is_absolute :
    ((generatePacket exLoaderT1 0 ⟨1, 0, 0⟩).1.packet?.map
      fun p => (p.trial_id, p.trial_time_ms)) = some (some 0, some 25) ∧
    (25 : ℚ) ≠ (1/40 - 1/40) * 1000 ∧
    ((generatePacket exLoaderT1 0 ⟨0, 0, 0⟩).1.packet?.map
      fun p => (p.trial_id, p.trial_time_ms)) = some (none, some 0) := by
  refine ⟨?_, by norm_num, ?_⟩
  · with_unfolding_all decide
  · with_unfolding_all decide

/-- C4 (amended): `seek` sets the cursor to `clamp(⌊t·40⌋, 0, N−1)` and
leaves both the sequence counter and the stream's start time unchanged (no
re-basing of `T_start` happens). -/
theorem c4_seek_clamps_cursor_only (L : Loader) (pos : ℚ) (st : EngineState) :
    (seek L pos st).current_index =
      (max 0 (min ⌊pos * 40⌋ (L.num_timesteps - 1))).toNat ∧
    (seek L pos st).sequence_number = st.sequence_number ∧
    (seek L pos st).start_time = st.start_time := by
  refine ⟨?_, rfl, rfl⟩
  show (max 0 (min (pyInt (pos * (stream_frequency_hz : ℕ))) (L.num_timesteps - 1))).toNat = _
  rw [clamp_pyInt_eq_clamp_floor]
  norm_num [stream_frequency_hz]

/-- C4 (counterexample): `seek` does not re-base `T_start`; on a concrete
engine state with `s = 4` at wall-clock `7`, the state after `seek(1.0)`
differs from the one the claim describes (which would set
`T_start = 7 − 4·0.025`). -/
theorem c4_seek_does_not_rebase :
    seek exLoader 1 ⟨0, 4, 0⟩ ≠ seekSpec exLoader 1 7 ⟨0, 4, 0⟩ := by
  with_unfolding_all decide

/-- C7: `delete_session` returns `False` and leaves the manager untouched
for an unknown code or a session with live connections; otherwise it
returns `True`, removes exactly that entry, and hands back the removed
session with its engine stopped. -/
theorem c7_delete_session_spec (m : SessionManager) (code : String)
    (hnd : (m.sessions.map Prod.fst).Nodup) :
    (lookupEntry m.sessions code = none → deleteSession m code = (false, m, none)) ∧
    (∀ s, lookupEntry m.sessions code = some s → 0 < s.connections →
      deleteSession m code = (false, m, none)) ∧
    (∀ s, lookupEntry m.sessions code = some s → s.connections ≤ 0 →
      (deleteSession m code).1 = true ∧
      (deleteSession m code).2.2 = some { s with is_running := false } ∧
      lookupEntry (deleteSession m code).2.1.sessions code = none ∧
      (∀ c', c' ≠ code →
        lookupEntry (deleteSession m code).2.1.sessions c' =
          lookupEntry m.sessions c') ∧
      (deleteSession m code).2.1.max_sessions = m.max_sessions) := by
  refine ⟨fun h => ?_, fun s hs hc => ?_, fun s hs hc => ?_⟩
  · simp [deleteSession, h]
  · simp [deleteSession, hs, hc]
  · have hnc : ¬0 < s.connections := not_lt.mpr hc
    refine ⟨by simp [deleteSession, hs, hnc], by simp [deleteSession, hs, hnc],
      ?_, fun c' hne => ?_, by simp [deleteSession, hs, hnc]⟩
    · simp only [deleteSession, hs, if_neg hnc]
      exact lookupEntry_removeEntry_self m.sessions code hnd
    · simp only [deleteSession, hs, if_neg hnc]
      exact lookupEntry_removeEntry_ne m.sessions code c' hne

/-- Witness for C7 on a concrete manager: unknown code, busy session, and
idle session. -/
theorem c7_delete_session_witness :
    deleteSession exManager "no-such-0" = (false, exManager, none) ∧
    deleteSession exManager "busy-old-1" = (false, exManager, none) ∧
    (deleteSession exManager "idle-new-2").1 = true ∧
    lookupEntry (deleteSession exManager "idle-new-2").2.1.sessions
      "idle-new-2" = none ∧
    lookupEntry (deleteSession exManager "idle-new-2").2.1.sessions
      "busy-old-1" = lookupEntry exManager.sessions "busy-old-1" := by
  have h := c7_delete_session_spec exManager
  refine ⟨(h "no-such-0" (by with_unfolding_all decide)).1 (by with_unfolding_all decide),
    (h "busy-old-1" (by with_unfolding_all decide)).2.1 ⟨true, 0, 0, 1⟩
      (by with_unfolding_all decide) (by with_unfolding_all decide),
    ?_, ?_, ?_⟩
  · exact ((h "idle-new-2" (by with_unfolding_all decide)).2.2 ⟨true, 1, 1, 0⟩
      (by with_unfolding_all decide) (by with_unfolding_all decide)).1
  · exact ((h "idle-new-2" (by with_unfolding_all decide)).2.2 ⟨true, 1, 1, 0⟩
      (by with_unfolding_all decide) (by with_unfolding_all decide)).2.2.1
  · exact ((h "idle-new-2" (by with_unfolding_all decide)).2.2 ⟨true, 1, 1, 0⟩
      (by with_unfolding_all decide) (by with_unfolding_all decide)).2.2.2.1
      "busy-old-1" (by with_unfolding_all decide)

/-- C8: a window whose kinematics slice is empty does not yield a packet
with zeroed kinematics — `_generate_packet` hits the uncaught `IndexError`
and the whole stream run emits nothing, even with the loop flag set. -/
theorem c8_empty_kinematics_aborts_stream :
    (exLoader.get_kinematics 0 (1/40)).vx = [] ∧
    (generatePacket exLoader 0 ⟨0, 0, 0⟩).1 = .kinematicsError ∧
    stream exLoader ⟨0, 0, 0⟩ true none none 10 [] (fun _ => 0) 0 = [] := by
  refine ⟨?_, ?_, ?_⟩
  · with_unfolding_all decide
  · with_unfolding_all decide
  · with_unfolding_all decide

/-- C9 (counterexample): with a trial filter set, the first emitted packet
of a fresh `stream` run is not synthesized from bin 0: it carries
`trial_time_ms = 50` (bin 2), while the packet bin 0 would synthesize
carries `trial_time_ms = 0`. -/
theorem c9_first_emission_not_bin0_under_filter :
    ((stream exLoaderT2 ⟨0, 0, 0⟩ false (some 0) none 10 [] (fun _ => 0) 0).head?.map
      fun p => (p.sequence_number, p.trial_time_ms)) = some (0, some 50) ∧
    ((generatePacket exLoaderT2 0 ⟨0, 0, 0⟩).1.packet?.map
      fun p => p.trial_time_ms) = some (some 0) := by
  constructor
  · with_unfolding_all decide
  · with_unfolding_all decide

/-- C9 (amended): every `stream` call discards the prior cursor/sequence
state entirely; the first emitted packet always has `sequence_number = 0`,
and when no filter is set it is synthesized from bin 0. -/
theorem c9_stream_resets_state (L : Loader) (prior prior' : EngineState)
    (loopFlag : Bool) (tf gf : Option ℕ) (fuel : ℕ) (pauses : List Bool)
    (clock : ℕ → ℚ) (now₀ : ℚ) :
    stream L prior loopFlag tf gf fuel pauses clock now₀ =
      stream L prior' loopFlag tf gf fuel pauses clock now₀ ∧
    (∀ p ps, stream L prior loopFlag tf gf fuel pauses clock now₀ = p :: ps →
      p.sequence_number = 0) ∧
    (tf = none → gf = none →
      ∀ p ps, stream L prior loopFlag tf gf fuel pauses clock now₀ = p :: ps →
        p.trial_time_ms = some 0) := by
  refine ⟨rfl, fun p ps h => ?_, fun htf hgf p ps h => ?_⟩
  · have hm := streamRun_map_seq ⟨L, loopFlag, tf, gf, clock⟩ fuel pauses
      { prior with current_index := 0, sequence_number := 0, start_time := now₀ }
    rw [show streamRun ⟨L, loopFlag, tf, gf, clock⟩ fuel pauses
        { prior with current_index := 0, sequence_number := 0, start_time := now₀ } =
        stream L prior loopFlag tf gf fuel pauses clock now₀ from rfl, h] at hm
    simpa [List.range'] using congrArg List.head? hm
  · exact streamRun_nofilter_first ⟨L, loopFlag, tf, gf, clock⟩ htf hgf fuel pauses
      { prior with current_index := 0, sequence_number := 0, start_time := now₀ }
      rfl p ps h

/-- Witness for C9 (amended) on a concrete unfiltered run. -/
theorem c9_stream_resets_state_witness :
    stream exLoaderT2 ⟨3, 5, 9⟩ false none none 10 [] (fun _ => 0) 0 =
      stream exLoaderT2 ⟨0, 0, 0⟩ false none none 10 [] (fun _ => 0) 0 ∧
    ((stream exLoaderT2 ⟨3, 5, 9⟩ false none none 10 [] (fun _ => 0) 0).head?.map
      fun p => (p.sequence_number, p.trial_time_ms)) = some (0, some 0) := by
  obtain ⟨h1, h2, h3⟩ := c9_stream_resets_state exLoaderT2 ⟨3, 5, 9⟩ ⟨0, 0, 0⟩
    false none none 10 [] (fun _ => 0) 0
  refine ⟨h1, ?_⟩
  have hne : stream exLoaderT2 ⟨3, 5, 9⟩ false none none 10 [] (fun _ => 0) 0 ≠ [] := by
    with_unfolding_all decide
  obtain ⟨p, ps, hp⟩ := List.exists_cons_of_ne_nil hne
  rw [hp]
  simp [h2 p ps hp, h3 rfl rfl p ps hp]

/-- C6 (counterexample): at capacity, with the oldest session busy and a
younger idle session available, `create_session` evicts nothing — the idle
session survives and the map grows past the cap, although the claim says
the least-recently-active zero-connection session is evicted. -/
theorem c6_no_scan_for_idle_session :
    (createSession exManager "fresh-code-3" 2).sessions.length = 3 ∧
    lookupEntry (createSession exManager "fresh-code-3" 2).sessions "idle-new-2"
      = some { is_running := true, created := 1, last_active := 1, connections := 0 } := by
  constructor
  · with_unfolding_all decide
  · with_unfolding_all decide

/-- C6 (amended): at capacity, `create_session` examines only the single
oldest entry: it is evicted exactly when it has no connections, otherwise
nothing is evicted and the new session is inserted anyway; in either case a
session with live connections is never removed. -/
theorem c6_create_at_capacity (m : SessionManager) (c₀ : String) (s₀ : Session)
    (rest : List (String × Session)) (code : String) (now : ℚ)
    (hs : m.sessions = (c₀, s₀) :: rest)
    (hfull : m.max_sessions ≤ m.sessions.length)
    (hnew : lookupEntry m.sessions code = none) :
    (createSession m code now).sessions =
      (if 0 < s₀.connections then m.sessions else rest) ++
        [(code, freshSession now)] := by
  have hlook : lookupEntry m.sessions c₀ = some s₀ := by
    rw [hs]; simp [lookupEntry]
  have hrem : removeEntry m.sessions c₀ = rest := by
    rw [hs]; simp [removeEntry]
  unfold createSession
  rw [if_neg (by simp [hnew]), if_pos hfull]
  unfold evictOldestSession
  rw [hs]
  dsimp only
  by_cases hb : 0 < s₀.connections
  · simp [hb, hs]
  · simp [hb, deleteSession, hlook, hrem]

/-- Witness for C6 (amended): with a busy oldest entry nothing is evicted;
with an idle oldest entry exactly it is evicted. -/
theorem c6_create_at_capacity_witness :
    (createSession exManager "fresh-code-3" 2).sessions =
      exManager.sessions ++ [("fresh-code-3", freshSession 2)] ∧
    (createSession exManagerIdleFirst "fresh-code-3" 2).sessions =
      [("busy-new-2", { is_running := true, created := 1, last_active := 1,
                        connections := 1 }),
       ("fresh-code-3", freshSession 2)] := by
  have h1 := c6_create_at_capacity exManager "busy-old-1"
    { is_running := true, created := 0, last_active := 0, connections := 1 }
    [("idle-new-2", { is_running := true, created := 1, last_active := 1,
                      connections := 0 })]
    "fresh-code-3" 2 (by with_unfolding_all decide) (by with_unfolding_all decide)
    (by with_unfolding_all decide)
  have h2 := c6_create_at_capacity exManagerIdleFirst "idle-old-1"
    { is_running := true, created := 0, last_active := 0, connections := 0 }
    [("busy-new-2", { is_running := true, created := 1, last_active := 1,
                      connections := 1 })]
    "fresh-code-3" 2 (by with_unfolding_all decide) (by with_unfolding_all decide)
    (by with_unfolding_all decide)
  rw [h1, h2]
  constructor
  · with_unfolding_all decide
  · with_unfolding_all decide

/-! ## Lemmas for the connection-counter invariant -/

theorem setEntry_of_lookup_none (f : Session → Session)
    (l : List (String × Session)) (code : String)
    (h : lookupEntry l code = none) : setEntry f l code = l := by
  induction l with
  | nil => rfl
  | cons e rest ih =>
    rcases e with ⟨c, s⟩
    by_cases hc : c = code
    · rw [lookupEntry, if_pos hc] at h
      exact absurd h (by simp)
    · rw [lookupEntry, if_neg hc] at h
      simp [setEntry, hc, ih h]

theorem lookupEntry_setEntry_self (f : Session → Session)
    (l : List (String × Session)) (code : String) :
    lookupEntry (setEntry f l code) code = (lookupEntry l code).map f := by
  induction l with
  | nil => rfl
  | cons e rest ih =>
    rcases e with ⟨c, s⟩
    by_cases hc : c = code
    · simp [setEntry, lookupEntry, hc]
    · simp [setEntry, lookupEntry, hc, ih]

theorem mem_setEntry {Q : Session → Prop} (f : Session → Session)
    (hf : ∀ s, Q s → Q (f s)) (l : List (String × Session)) (code : String)
    (h : ∀ e ∈ l, Q e.2) : ∀ e ∈ setEntry f l code, Q e.2 := by
  induction l with
  | nil => intro e he; simp [setEntry] at he
  | cons e₀ rest ih =>
    rcases e₀ with ⟨c, s⟩
    intro e he
    by_cases hc : c = code
    · rw [setEntry, if_pos hc] at he
      rcases List.mem_cons.mp he with h₁ | h₂
      · subst h₁; exact hf s (h (c, s) (by simp))
      · exact h e (List.mem_cons_of_mem _ h₂)
    · rw [setEntry, if_neg hc] at he
      rcases List.mem_cons.mp he with h₁ | h₂
      · subst h₁; exact h (c, s) (by simp)
      · exact ih (fun e' he' => h e' (List.mem_cons_of_mem _ he')) e h₂

theorem mem_removeEntry (l : List (String × Session)) (code : String) :
    ∀ e ∈ removeEntry l code, e ∈ l := by
  induction l with
  | nil => intro e he; simp [removeEntry] at he
  | cons e₀ rest ih =>
    rcases e₀ with ⟨c, s⟩
    intro e he
    by_cases hc : c = code
    · rw [removeEntry, if_pos hc] at he
      exact List.mem_cons_of_mem _ he
    · rw [removeEntry, if_neg hc] at he
      rcases List.mem_cons.mp he with h₁ | h₂
      · subst h₁; simp
      · exact List.mem_cons_of_mem _ (ih e h₂)

theorem lookupEntry_mem (l : List (String × Session)) (code : String)
    (s : Session) (h : lookupEntry l code = some s) : (code, s) ∈ l := by
  induction l with
  | nil => simp [lookupEntry] at h
  | cons e₀ rest ih =>
    rcases e₀ with ⟨c, s'⟩
    by_cases hc : c = code
    · rw [lookupEntry, if_pos hc] at h
      obtain rfl : s' = s := by simpa using h
      subst hc
      simp
    · rw [lookupEntry, if_neg hc] at h
      exact List.mem_cons_of_mem _ (ih h)

theorem connsNonneg_updateActivity (m : SessionManager) (code : String)
    (now : ℚ) (h : connsNonneg m) : connsNonneg (updateActivity m code now) := by
  unfold updateActivity
  rcases hl : lookupEntry m.sessions code with - | s
  · exact h
  · intro e he
    rcases List.mem_append.mp he with h₁ | h₂
    · exact h e (mem_removeEntry m.sessions code e h₁)
    · obtain rfl : e = (code, { s with last_active := now }) := by simpa using h₂
      exact h (code, s) (lookupEntry_mem m.sessions code s hl)

theorem connsNonneg_deleteSession (m : SessionManager) (code : String)
    (h : connsNonneg m) : connsNonneg (deleteSession m code).2.1 := by
  rcases hl : lookupEntry m.sessions code with _ | s
  · simpa [deleteSession, hl] using h
  · by_cases hc : 0 < s.connections
    · simpa [deleteSession, hl, hc] using h
    · have he : (deleteSession m code).2.1 =
          { m with sessions := removeEntry m.sessions code } := by
        simp [deleteSession, hl, hc]
      rw [he]
      intro e hee
      exact h e (mem_removeEntry m.sessions code e hee)

theorem connsNonneg_evictOldest (m : SessionManager) (h : connsNonneg m) :
    connsNonneg (evictOldestSession m) := by
  rcases hs : m.sessions with _ | ⟨⟨c₀, s₀⟩, rest⟩
  · simpa [evictOldestSession, hs] using h
  · by_cases hc : 0 < s₀.connections
    · simpa [evictOldestSession, hs, hc] using h
    · have he : evictOldestSession m = (deleteSession m c₀).2.1 := by
        simp [evictOldestSession, hs, hc]
      rw [he]
      exact connsNonneg_deleteSession m c₀ h

theorem connsNonneg_createSession (m : SessionManager) (code : String)
    (now : ℚ) (h : connsNonneg m) : connsNonneg (createSession m code now) := by
  unfold createSession
  by_cases hl : (lookupEntry m.sessions code).isSome
  · simpa [hl] using connsNonneg_updateActivity m code now h
  · rw [if_neg hl]
    intro e he
    rcases List.mem_append.mp he with h₁ | h₂
    · by_cases hf : m.max_sessions ≤ m.sessions.length
      · rw [if_pos hf] at h₁
        exact connsNonneg_evictOldest m h e h₁
      · rw [if_neg hf] at h₁
        exact h e h₁
    · obtain rfl : e = (code, freshSession now) := by
        rcases List.mem_cons.mp h₂ with h₃ | h₄
        · exact h₃
        · simp at h₄
      simp [freshSession]

theorem connsNonneg_foldl_delete (codes : List String) :
    ∀ m : SessionManager, connsNonneg m →
      connsNonneg (codes.foldl (fun acc c => (deleteSession acc c).2.1) m) := by
  induction codes with
  | nil => intro m h; exact h
  | cons c rest ih =>
    intro m h
    exact ih (deleteSession m c).2.1 (connsNonneg_deleteSession m c h)

theorem connsNonneg_applyOp (m : SessionManager) (op : MgrOp)
    (h : connsNonneg m) : connsNonneg (applyOp m op) := by
  cases op with
  | create code now => exact connsNonneg_createSession m code now h
  | get code now =>
    show connsNonneg (getSession m code now)
    unfold getSession
    rcases hl : lookupEntry m.sessions code with _ | s
    · exact h
    · exact connsNonneg_updateActivity m code now h
  | increment code =>
    show connsNonneg (incrementConnections m code)
    intro e he
    refine @mem_setEntry (fun s => 0 ≤ s.connections) _ (fun s hs => ?_)
      m.sessions code h e he
    simp only
    omega
  | decrement code =>
    show connsNonneg (decrementConnections m code)
    intro e he
    refine @mem_setEntry (fun s => 0 ≤ s.connections) _ (fun s hs => ?_)
      m.sessions code h e he
    simp only
    omega
  | delete code => exact connsNonneg_deleteSession m code h
  | cleanup now =>
    show connsNonneg (cleanupExpiredSessions m now).1
    exact connsNonneg_foldl_delete _ m h

theorem connsNonneg_applyOps (ops : List MgrOp) :
    ∀ m : SessionManager, connsNonneg m → connsNonneg (applyOps m ops) := by
  induction ops with
  | nil => intro m h; exact h
  | cons op rest ih =>
    intro m h
    exact ih (applyOp m op) (connsNonneg_applyOp m op h)

/-- C10: `increment_connections` adds one and `decrement_connections`
subtracts one clamped at zero (observed through lookup); both are silent
no-ops for an unknown code; and over every sequence of manager operations
from a fresh manager, every stored connection counter stays nonnegative. -/
theorem c10_connection_counters (mx : ℕ) (ttl : ℚ) :
    (∀ (m : SessionManager) (code : String),
      lookupEntry m.sessions code = none →
        incrementConnections m code = m ∧ decrementConnections m code = m) ∧
    (∀ (m : SessionManager) (code : String),
      lookupEntry (incrementConnections m code).sessions code =
        (lookupEntry m.sessions code).map
          fun s => { s with connections := s.connections + 1 }) ∧
    (∀ (m : SessionManager) (code : String),
      lookupEntry (decrementConnections m code).sessions code =
        (lookupEntry m.sessions code).map
          fun s => { s with connections := max 0 (s.connections - 1) }) ∧
    (∀ ops : List MgrOp, connsNonneg (applyOps (initManager mx ttl) ops)) := by
  refine ⟨fun m code h => ?_, fun m code => ?_, fun m code => ?_, fun ops => ?_⟩
  · constructor
    · show { m with sessions := setEntry _ m.sessions code } = m
      rw [setEntry_of_lookup_none _ _ _ h]
    · show { m with sessions := setEntry _ m.sessions code } = m
      rw [setEntry_of_lookup_none _ _ _ h]
  · exact lookupEntry_setEntry_self _ m.sessions code
  · exact lookupEntry_setEntry_self _ m.sessions code
  · exact connsNonneg_applyOps ops (initManager mx ttl) (by intro e he; simp [initManager] at he)

/-- Witness for C10: a concrete no-op on an unknown code, a concrete
increment, and a concrete operation sequence that exercises the clamp. -/
theorem c10_connection_counters_witness :
    incrementConnections exManager "no-such-0" = exManager ∧
    lookupEntry (incrementConnections exManager "idle-new-2").sessions "idle-new-2"
      = some { is_running := true, created := 1, last_active := 1, connections := 1 } ∧
    connsNonneg (applyOps (initManager 5 3600)
      [.create "a-b-1" 0, .increment "a-b-1", .decrement "a-b-1",
       .decrement "a-b-1", .decrement "a-b-1"]) := by
  obtain ⟨h1, h2, h3, h4⟩ := c10_connection_counters 5 3600
  refine ⟨(h1 exManager "no-such-0" (by with_unfolding_all decide)).1, ?_, h4 _⟩
  rw [h2 exManager "idle-new-2"]
  with_unfolding_all decide

/-! ## Lemmas for the spike-binning characterization -/

theorem listModify_length (f : α → α) :
    ∀ (n : ℕ) (l : List α), (listModify f n l).length = l.length := by
  intro n l
  induction l generalizing n with
  | nil => cases n <;> rfl
  | cons a as ih =>
    cases n with
    | zero => rfl
    | succ n => simp [listModify, ih]

theorem listModify_eq_of_le (f : α → α) :
    ∀ (n : ℕ) (l : List α), l.length ≤ n → listModify f n l = l := by
  intro n l
  induction l generalizing n with
  | nil => intro _; cases n <;> rfl
  | cons a as ih =>
    cases n with
    | zero => intro h; simp at h
    | succ n => intro h; simp at h; simp [listModify, ih n h]

theorem listModify_getD_ne (f : α → α) (d : α) :
    ∀ (n m : ℕ) (l : List α), n ≠ m → (listModify f n l).getD m d = l.getD m d := by
  intro n m l
  induction l generalizing n m with
  | nil => intro _; cases n <;> rfl
  | cons a as ih =>
    intro hne
    cases n with
    | zero =>
      cases m with
      | zero => exact absurd rfl hne
      | succ m => rfl
    | succ n =>
      cases m with
      | zero => rfl
      | succ m =>
        show (listModify f n as).getD m d = as.getD m d
        exact ih n m (fun h => hne (by omega))

theorem listModify_getD_self (f : α → α) (d : α) :
    ∀ (n : ℕ) (l : List α), n < l.length →
      (listModify f n l).getD n d = f (l.getD n d) := by
  intro n l
  induction l generalizing n with
  | nil => intro h; simp at h
  | cons a as ih =>
    intro h
    cases n with
    | zero => rfl
    | succ n =>
      show (listModify f n as).getD n d = f (as.getD n d)
      exact ih n (Nat.lt_of_succ_lt_succ h)

theorem listModify_forall {Q : α → Prop} (f : α → α) (hf : ∀ a, Q a → Q (f a)) :
    ∀ (n : ℕ) (l : List α), (∀ a ∈ l, Q a) → ∀ a ∈ listModify f n l, Q a := by
  intro n l
  induction l generalizing n with
  | nil => intro _ a ha; simp [listModify] at ha
  | cons x xs ih =>
    intro h a ha
    cases n with
    | zero =>
      rcases List.mem_cons.mp ha with h₁ | h₂
      · subst h₁; exact hf x (h x (by simp))
      · exact h a (List.mem_cons_of_mem _ h₂)
    | succ n =>
      rcases List.mem_cons.mp ha with h₁ | h₂
      · subst h₁; exact h a (by simp)
      · exact ih n (fun y hy => h y (List.mem_cons_of_mem _ hy)) a h₂

theorem getD_mem_of_lt (l : List α) (n : ℕ) (d : α) (h : n < l.length) :
    l.getD n d ∈ l := by
  induction l generalizing n with
  | nil => simp at h
  | cons a as ih =>
    cases n with
    | zero => simp
    | succ n => exact List.mem_cons_of_mem _ (ih n (by simpa using h))

theorem getD_replicate_eval (a d : α) :
    ∀ (n m : ℕ), (List.replicate n a).getD m d = if m < n then a else d := by
  intro n
  induction n with
  | zero => intro m; simp
  | succ n ih =>
    intro m
    cases m with
    | zero => simp [List.replicate]
    | succ m => simpa [List.replicate] using ih m

theorem countAt_replicate (B C b c : ℕ) :
    countAt (List.replicate B (List.replicate C 0)) b c = 0 := by
  unfold countAt
  rw [getD_replicate_eval]
  split
  · rw [getD_replicate_eval]; split <;> rfl
  · rfl

theorem replicate_shape (B C : ℕ) :
    MatShape (List.replicate B (List.replicate C 0)) B C := by
  refine ⟨by simp, fun row hrow => ?_⟩
  rw [List.eq_of_mem_replicate hrow]
  simp

theorem bumpAt_shape (M : List (List ℕ)) (B C b c : ℕ) (h : MatShape M B C) :
    MatShape (bumpAt M b c) B C := by
  refine ⟨by rw [bumpAt, listModify_length]; exact h.1, ?_⟩
  exact listModify_forall _ (fun row hrow => by rw [listModify_length]; exact hrow)
    b M h.2

theorem countAt_bumpAt_self (M : List (List ℕ)) (B C b c : ℕ)
    (h : MatShape M B C) (hb : b < B) (hc : c < C) :
    countAt (bumpAt M b c) b c = countAt M b c + 1 := by
  unfold countAt bumpAt
  rw [listModify_getD_self _ _ _ _ (h.1 ▸ hb),
    listModify_getD_self _ _ _ _ (by rw [h.2 _ (getD_mem_of_lt M b [] (h.1 ▸ hb))]; exact hc)]

theorem countAt_bumpAt_ne (M : List (List ℕ)) (b c b' c' : ℕ)
    (hne : ¬(b = b' ∧ c = c')) :
    countAt (bumpAt M b c) b' c' = countAt M b' c' := by
  unfold countAt bumpAt
  by_cases hbb : b = b'
  · subst hbb
    have hcc : c ≠ c' := fun h => hne ⟨rfl, h⟩
    by_cases hlen : b < M.length
    · rw [listModify_getD_self _ _ _ _ hlen, listModify_getD_ne _ _ _ _ _ hcc]
    · rw [listModify_eq_of_le _ _ _ (not_lt.mp hlen)]
  · rw [listModify_getD_ne _ _ _ _ _ hbb]

theorem clipBin_lt (B : ℕ) (hB : 1 ≤ B) (z : ℤ) : clipBin B z < B := by
  unfold clipBin
  have h1 : min (max 0 z) ((B : ℤ) - 1) ≤ (B : ℤ) - 1 := min_le_right _ _
  omega

theorem maxOne_pyInt_toNat (q : ℚ) : max 1 (pyInt q).toNat = max 1 ⌊q⌋.toNat := by
  unfold pyInt
  split
  · rfl
  · rename_i hq
    have h1 : ⌈q⌉ ≤ 0 := Int.ceil_le.mpr (by exact_mod_cast (lt_of_not_le hq).le)
    have h2 : ⌊q⌋ ≤ ⌈q⌉ := Int.floor_le_ceil q
    omega

theorem foldl_bump_shape (c : ℕ) (β : ℚ → ℕ) (B C : ℕ) :
    ∀ (ts : List ℚ) (M : List (List ℕ)), MatShape M B C →
      MatShape (ts.foldl (fun cs t => bumpAt cs (β t) c) M) B C := by
  intro ts
  induction ts with
  | nil => intro M h; exact h
  | cons t ts ih =>
    intro M h
    exact ih (bumpAt M (β t) c) (bumpAt_shape M B C (β t) c h)

theorem countAt_foldl_bump (c : ℕ) (β : ℚ → ℕ) (B C : ℕ) (hc : c < C) :
    ∀ (ts : List ℚ) (M : List (List ℕ)), MatShape M B C →
      ∀ b' c', b' < B → c' < C →
        countAt (ts.foldl (fun cs t => bumpAt cs (β t) c) M) b' c' =
          countAt M b' c' +
            (if c' = c then (ts.filter fun t => β t = b').length else 0) := by
  intro ts
  induction ts with
  | nil => intro M _ b' c' _ _; simp
  | cons t ts ih =>
    intro M h b' c' hb' hc'
    rw [List.foldl_cons,
      ih (bumpAt M (β t) c) (bumpAt_shape M B C (β t) c h) b' c' hb' hc']
    by_cases hcc : c' = c
    · subst hcc
      by_cases hbb : β t = b'
      · rw [show bumpAt M (β t) c' = bumpAt M b' c' from hbb ▸ rfl,
          countAt_bumpAt_self M B C b' c' h hb' hc']
        simp [List.filter_cons, hbb]
        omega
      · rw [countAt_bumpAt_ne M (β t) c' b' c' (fun hp => hbb hp.1)]
        simp [List.filter_cons, hbb]
    · rw [countAt_bumpAt_ne M (β t) c b' c' (fun hp => hcc hp.2.symm)]
      simp [hcc]

theorem countAt_foldl_channels (β : ℚ → ℕ) (spk : ℕ → List ℚ) (B C : ℕ) :
    ∀ (us : List ℕ), (∀ u ∈ us, u < C) → us.Nodup →
      ∀ (M : List (List ℕ)), MatShape M B C →
        ∀ b' c', b' < B → c' < C →
          countAt
              (us.foldl
                (fun counts u =>
                  (spk u).foldl (fun cs t => bumpAt cs (β t) u) counts) M) b' c' =
            countAt M b' c' +
              (if c' ∈ us then ((spk c').filter fun t => β t = b').length else 0) := by
  intro us
  induction us with
  | nil => intro _ _ M _ b' c' _ _; simp
  | cons u us ih =>
    intro hus hnd M h b' c' hb' hc'
    rw [List.foldl_cons,
      ih (fun v hv => hus v (List.mem_cons_of_mem _ hv)) (List.nodup_cons.mp hnd).2
        ((spk u).foldl (fun cs t => bumpAt cs (β t) u) M)
        (foldl_bump_shape u β B C (spk u) M h) b' c' hb' hc',
      countAt_foldl_bump u β B C (hus u (by simp)) (spk u) M h b' c' hb' hc']
    by_cases hcu : c' = u
    · subst hcu
      have hnotin : c' ∉ us := (List.nodup_cons.mp hnd).1
      simp [hnotin]
    · simp [hcu, List.mem_cons]

theorem foldl_channels_shape (β : ℚ → ℕ) (spk : ℕ → List ℚ) (B C : ℕ) :
    ∀ (us : List ℕ) (M : List (List ℕ)), MatShape M B C →
      MatShape
        (us.foldl
          (fun counts u =>
            (spk u).foldl (fun cs t => bumpAt cs (β t) u) counts) M) B C := by
  intro us
  induction us with
  | nil => intro M h; exact h
  | cons u us ih =>
    intro M h
    exact ih _ (foldl_bump_shape u β B C (spk u) M h)

theorem getD_eq_default_of_le (l : List α) (n : ℕ) (d : α)
    (h : l.length ≤ n) : l.getD n d = d := by
  induction l generalizing n with
  | nil => cases n <;> rfl
  | cons a as ih =>
    cases n with
    | zero => simp at h
    | succ n =>
      show as.getD n d = d
      exact ih n (by simpa using h)

theorem matShape_get_binned_spikes (L : Loader) (t0 t1 bin_ms : ℚ) :
    MatShape (L.get_binned_spikes t0 t1 bin_ms)
      (max 1 (pyInt ((t1 - t0) / (bin_ms / 1000))).toNat) L.num_channels := by
  unfold Loader.get_binned_spikes
  exact foldl_channels_shape
    (fun t => clipBin (max 1 (pyInt ((t1 - t0) / (bin_ms / 1000))).toNat)
      ⌊(t - t0) / (bin_ms / 1000)⌋)
    (fun u => (L.spikeTimes.getD u []).filter
      fun t => decide (t0 ≤ t) && decide (t < t1))
    _ _ (List.range L.num_channels) _ (replicate_shape _ _)

theorem countAt_eq_zero_outside (M : List (List ℕ)) (B C : ℕ)
    (h : MatShape M B C) (b c : ℕ) (hout : ¬(b < B ∧ c < C)) :
    countAt M b c = 0 := by
  unfold countAt
  by_cases hb : b < B
  · have hrow : (M.getD b []).length = C :=
      h.2 _ (getD_mem_of_lt M b [] (h.1 ▸ hb))
    have hc : ¬c < C := fun hcl => hout ⟨hb, hcl⟩
    exact getD_eq_default_of_le _ _ _ (by omega)
  · rw [getD_eq_default_of_le M b [] (by have := h.1; omega)]
    cases c <;> rfl

theorem countAt_get_binned_spikes (L : Loader) (t0 t1 bin_ms : ℚ) (b c : ℕ)
    (hb : b < max 1 (pyInt ((t1 - t0) / (bin_ms / 1000))).toNat)
    (hc : c < L.num_channels) :
    countAt (L.get_binned_spikes t0 t1 bin_ms) b c =
      (((L.spikeTimes.getD c []).filter fun t =>
          decide (t0 ≤ t) && decide (t < t1)).filter fun t =>
        clipBin (max 1 (pyInt ((t1 - t0) / (bin_ms / 1000))).toNat)
          ⌊(t - t0) / (bin_ms / 1000)⌋ = b).length := by
  unfold Loader.get_binned_spikes
  rw [countAt_foldl_channels
    (fun t => clipBin (max 1 (pyInt ((t1 - t0) / (bin_ms / 1000))).toNat)
      ⌊(t - t0) / (bin_ms / 1000)⌋)
    (fun u => (L.spikeTimes.getD u []).filter
      fun t => decide (t0 ≤ t) && decide (t < t1))
    _ _ (List.range L.num_channels) (fun u hu => List.mem_range.mp hu)
    (List.nodup_range _) _ (replicate_shape _ _) b c hb hc,
    countAt_replicate]
  simp [List.mem_range, hc]

/-- C5: `get_binned_spikes(t0, t1, bin_ms)` returns a `B × C` matrix with
`B = max(1, ⌊(t1−t0)/(bin_ms/1000)⌋)`; entry `(b, c)` counts exactly the
spikes of channel `c` with time in `[t0, t1)` whose clamped bucket
`clip(⌊(t−t0)/(bin_ms/1000)⌋, 0, B−1)` is `b`; and for a window entirely
out of range of a recording whose spikes lie in `[0, D]`, every entry is
zero. -/
theorem c5_get_binned_spikes_spec (L : Loader) (t0 t1 bin_ms : ℚ)
    (hspk : ∀ ts ∈ L.spikeTimes, ∀ t ∈ ts, 0 ≤ t ∧ t ≤ L.duration) :
    (L.get_binned_spikes t0 t1 bin_ms).length =
        max 1 (⌊(t1 - t0) / (bin_ms / 1000)⌋).toNat ∧
    (∀ row ∈ L.get_binned_spikes t0 t1 bin_ms, row.length = L.num_channels) ∧
    (∀ b c, b < max 1 (⌊(t1 - t0) / (bin_ms / 1000)⌋).toNat →
      c < L.num_channels →
      countAt (L.get_binned_spikes t0 t1 bin_ms) b c =
        (((L.spikeTimes.getD c []).filter fun t =>
            decide (t0 ≤ t) && decide (t < t1)).filter fun t =>
          clipBin (max 1 (⌊(t1 - t0) / (bin_ms / 1000)⌋).toNat)
            ⌊(t - t0) / (bin_ms / 1000)⌋ = b).length) ∧
    (t1 ≤ 0 ∨ L.duration < t0 →
      ∀ b c, countAt (L.get_binned_spikes t0 t1 bin_ms) b c = 0) := by
  have hBeq : max 1 (pyInt ((t1 - t0) / (bin_ms / 1000))).toNat =
      max 1 (⌊(t1 - t0) / (bin_ms / 1000)⌋).toNat :=
    maxOne_pyInt_toNat _
  have hshape := matShape_get_binned_spikes L t0 t1 bin_ms
  refine ⟨?_, hshape.2, fun b c hb hc => ?_, fun hwin b c => ?_⟩
  · rw [← hBeq]; exact hshape.1
  · rw [← hBeq] at hb ⊢
    exact countAt_get_binned_spikes L t0 t1 bin_ms b c hb hc
  · by_cases hin : b < max 1 (pyInt ((t1 - t0) / (bin_ms / 1000))).toNat ∧
        c < L.num_channels
    · rw [countAt_get_binned_spikes L t0 t1 bin_ms b c hin.1 hin.2]
      have hnil : ((L.spikeTimes.getD c []).filter fun t =>
          decide (t0 ≤ t) && decide (t < t1)) = [] := by
        rw [List.filter_eq_nil_iff]
        intro t ht
        have hbound : 0 ≤ t ∧ t ≤ L.duration := by
          rcases lt_or_le c L.spikeTimes.length with hcl | hcl
          · exact hspk _ (getD_mem_of_lt L.spikeTimes c [] hcl) t ht
          · rw [getD_eq_default_of_le _ _ _ hcl] at ht
            simp at ht
        simp only [Bool.and_eq_true, decide_eq_true_eq, not_and]
        intro h1 h2
        rcases hwin with hw | hw
        · exact absurd (lt_of_lt_of_le h2 hw) (not_lt.mpr hbound.1)
        · exact absurd (lt_of_le_of_lt hbound.2 hw) (not_lt.mpr h1)
      rw [hnil]
      rfl
    · exact countAt_eq_zero_outside _ _ _ hshape b c hin

/-- Witness for C5 on a concrete 2-channel recording: a 25 ms binning, a
50 ms binning of the same window, and an out-of-range window. -/
theorem c5_get_binned_spikes_witness :
    (exLoaderSpikes.get_binned_spikes 0 (1/10) 25).length = 4 ∧
    countAt (exLoaderSpikes.get_binned_spikes 0 (1/10) 25) 0 1 = 2 ∧
    countAt (exLoaderSpikes.get_binned_spikes 0 (1/10) 25) 3 0 = 1 ∧
    (exLoaderSpikes.get_binned_spikes 0 (1/10) 50).length = 2 ∧
    countAt (exLoaderSpikes.get_binned_spikes 0 (1/10) 50) 1 0 = 1 ∧
    countAt (exLoaderSpikes.get_binned_spikes 1 2 25) 0 0 = 0 := by
  obtain ⟨h1, h2, h3, h4⟩ := c5_get_binned_spikes_spec exLoaderSpikes 0 (1/10) 25
    (by with_unfolding_all decide)
  obtain ⟨k1, k2, k3, k4⟩ := c5_get_binned_spikes_spec exLoaderSpikes 0 (1/10) 50
    (by with_unfolding_all decide)
  obtain ⟨g1, g2, g3, g4⟩ := c5_get_binned_spikes_spec exLoaderSpikes 1 2 25
    (by with_unfolding_all decide)
  refine ⟨?_, ?_, ?_, ?_, ?_, ?_⟩
  · rw [h1]; with_unfolding_all decide
  · rw [h3 0 1 (by with_unfolding_all decide) (by with_unfolding_all decide)]
    with_unfolding_all decide
  · rw [h3 3 0 (by with_unfolding_all decide) (by with_unfolding_all decide)]
    with_unfolding_all decide
  · rw [k1]; with_unfolding_all decide
  · rw [k3 1 0 (by with_unfolding_all decide) (by with_unfolding_all decide)]
    with_unfolding_all decide
  · exact g4 (Or.inr (by with_unfolding_all decide)) 0 0

end PhantomLink
